import Mathlib

/-
Shallow embedding of the C-SQL engine (src/main.c) for checking the
natural-language specification against the code.

Rows are fixed-width byte buffers, modelled as `List Nat` (one entry per
byte).  A table's physical storage is modelled as the list of row slots in
row-number order (`store`); slots at indices `≥ numRows` may hold leftover
bytes, exactly as the pages do in the C program.  All definitions below are
translated from the corresponding C functions, whose names they keep.
-/

namespace CSQL

def PAGE_SIZE : Nat := 4096

def TABLE_MAX_PAGES : Nat := 100

inductive ColumnType
  | INTEGER
  | VARCHAR
  | REAL
deriving DecidableEq

inductive PrepareResult
  | PREPARE_SUCCESS
  | PREPARE_NEGATIVE_ID
  | PREPARE_STRING_TOO_LONG
  | PREPARE_SYNTAX_ERROR
  | PREPARE_UNRECOGNIZED_STATEMENT
  | PREPARE_TABLE_NOT_FOUND
  | PREPARE_INTERNAL_ERROR
deriving DecidableEq

inductive ExecuteResult
  | EXECUTE_SUCCESS
  | EXECUTE_TABLE_FULL
deriving DecidableEq

inductive StatementType
  | STATEMENT_INSERT
  | STATEMENT_UPDATE
  | STATEMENT_DELETE
  | STATEMENT_SELECT
deriving DecidableEq

inductive Operator
  | OP_EQUAL
  | OP_NOT_EQUAL
  | OP_GREATER_THAN
  | OP_LESS_THAN
  | OP_GREATER_THAN_OR_EQUAL
  | OP_LESS_THAN_OR_EQUAL
deriving DecidableEq

structure ColumnDefinition where
  name : String
  size : Nat
  offset : Nat
  type : ColumnType
deriving DecidableEq

/-- Table layout data computed by `schema_fill` (src/main.c:349-382). -/
structure Table where
  columns : List ColumnDefinition
  row_size : Nat
  rows_per_page : Nat
  max_rows : Nat
deriving DecidableEq

/-- The mutable part of a table: `num_rows` plus the physical row slots.
`fileLength` is the pager's `file_length` field, which is set once at
`pager_open` and never changed until `db_close`. -/
structure TableState where
  numRows : Nat
  store : List (List Nat)
  fileLength : Nat
deriving DecidableEq

/-- Cursor over a table (src/main.c:94-98); the table reference is passed
separately as its `num_rows`. -/
structure Cursor where
  row_num : Nat
  end_of_table : Bool
deriving DecidableEq

/-- A `memcpy(row + off, v.data, v.length)` into a row buffer. -/
def setBytes (row : List Nat) (off : Nat) (v : List Nat) : List Nat :=
  row.take off ++ v ++ row.drop (off + v.length)

/-- Little-endian two's-complement encoding of a C `int` (the 4 bytes that
`memcpy(dest, &int_value, 4)` copies). -/
def encodeInt32 (v : Int) : List Nat :=
  let u := (v % (2 ^ 32)).toNat
  [u % 256, u / 256 % 256, u / 256 ^ 2 % 256, u / 256 ^ 3 % 256]

/-- Reading 4 little-endian bytes back into a C `int`. -/
def decodeInt32 (bs : List Nat) : Int :=
  let u : Nat := bs.getD 0 0 + 256 * bs.getD 1 0 + 256 ^ 2 * bs.getD 2 0 +
      256 ^ 3 * bs.getD 3 0
  if u < 2 ^ 31 then (u : Int) else (u : Int) - 2 ^ 32

/-- Value of a maximal run of leading decimal digits, as `atoi` accumulates it. -/
def digitsVal : List Char → Nat → Nat
  | c :: cs, acc =>
      if c.isDigit then digitsVal cs (acc * 10 + (c.toNat - 48)) else acc
  | [], acc => acc

/-- C `atoi`: optional leading whitespace, optional sign, leading digits. -/
def atoiInt (s : String) : Int :=
  let cs := s.toList.dropWhile Char.isWhitespace
  match cs with
  | '-' :: rest => -(digitsVal rest 0 : Int)
  | '+' :: rest => (digitsVal rest 0 : Int)
  | _ => (digitsVal cs 0 : Int)

/-- Bytes of a string literal as copied by `memcpy(dest, value, strlen(value))`. -/
def strBytes (s : String) : List Nat := s.toList.map Char.toNat

/-- The `tolower` loop of `str_to_lower` (src/main.c:141-147). -/
def str_to_lower (s : List Char) : List Char := s.map Char.toLower

/-- Offset-filling loop of `schema_fill` (src/main.c:352-356): assigns each
column the running prefix sum of sizes and returns the total as `row_size`. -/
def fill_offsets : List ColumnDefinition → Nat → List ColumnDefinition × Nat
  | [], acc => ([], acc)
  | c :: cs, acc =>
      let rest := fill_offsets cs (acc + c.size)
      ({ c with offset := acc } :: rest.1, rest.2)

/-- Per-table body of `schema_fill` (src/main.c:349-382): computes the layout
fields and infers `num_rows` from the backing file's length. -/
def schema_fill (cols : List ColumnDefinition) (file_length : Nat) :
    Table × Nat :=
  let filled := fill_offsets cols 0
  let row_size := filled.2
  let rows_per_page := PAGE_SIZE / row_size
  let table_max_rows := rows_per_page * TABLE_MAX_PAGES
  let num_pages := file_length / PAGE_SIZE
  let bytes_remaining := file_length % PAGE_SIZE
  let num_rows := num_pages * rows_per_page + bytes_remaining / row_size
  (⟨filled.1, row_size, rows_per_page, table_max_rows⟩, num_rows)

/-- `table_start` (src/main.c:478-485). -/
def table_start (num_rows : Nat) : Cursor :=
  ⟨0, decide (num_rows = 0)⟩

/-- `table_end` (src/main.c:487-494). -/
def table_end (num_rows : Nat) : Cursor :=
  ⟨num_rows, true⟩

/-- `cursor_advance` (src/main.c:505-510). -/
def cursor_advance (num_rows : Nat) (c : Cursor) : Cursor :=
  let rn := c.row_num + 1
  ⟨rn, if num_rows ≤ rn then true else c.end_of_table⟩

/-- Page number computed by `cursor_value` (src/main.c:496-503). -/
def cursor_value_page_num (t : Table) (row_num : Nat) : Nat :=
  row_num / t.rows_per_page

/-- The fatal out-of-bounds guard of `get_page` (src/main.c:446-451):
`true` exactly when the process would exit. -/
def get_page_out_of_bounds (page_num : Nat) : Bool :=
  decide (page_num > TABLE_MAX_PAGES)

/-- Reading the row slot a cursor resolves to.  Out-of-range reads (which the
C program never performs on a well-formed table) yield the empty buffer. -/
def readRow (store : List (List Nat)) (i : Nat) : List Nat :=
  store.getD i []

/-- Writing a serialized row into the slot a cursor resolves to.  `execute_insert`
only ever writes at index `numRows`, the first slot past the occupied range,
which we model by appending when the slot list ends there. -/
def write_slot (store : List (List Nat)) (i : Nat) (r : List Nat) :
    List (List Nat) :=
  if i < store.length then store.set i r else store ++ [r]

/-- `string_to_operator`-style comparison dispatch of the INTEGER branch of
`valid_where_clause` (src/main.c:1258-1271). -/
def int_compare (op : Operator) (a b : Int) : Bool :=
  match op with
  | .OP_EQUAL => a == b
  | .OP_NOT_EQUAL => a != b
  | .OP_GREATER_THAN => b < a
  | .OP_LESS_THAN => a < b
  | .OP_GREATER_THAN_OR_EQUAL => b ≤ a
  | .OP_LESS_THAN_OR_EQUAL => a ≤ b

/-- INTEGER branch of `copy_value_into_bytes` (src/main.c:577-583):
`atoi` the literal, then copy `column.size` bytes of the resulting `int`
(faithful for the 4-byte INTEGER columns the engine is used with). -/
def copy_value_into_bytes_int (col : ColumnDefinition) (value : String) :
    List Nat :=
  (encodeInt32 (atoiInt value)).take col.size

/-- INTEGER branch of `valid_where_clause` (src/main.c:1252-1271): read the
stored `int` at the column's offset and compare it with the `int`
reconstituted from the clause's literal buffer. -/
def valid_where_clause_int (col : ColumnDefinition) (op : Operator)
    (valueBytes : List Nat) (row : List Nat) : Bool :=
  let int_value := decodeInt32 ((row.drop col.offset).take col.size)
  let where_int_value := decodeInt32 valueBytes
  int_compare op int_value where_int_value

/-- `execute_insert` (src/main.c:1194-1211). -/
def execute_insert (t : Table) (row : List Nat) (s : TableState) :
    ExecuteResult × TableState :=
  if t.max_rows ≤ s.numRows then (.EXECUTE_TABLE_FULL, s)
  else (.EXECUTE_SUCCESS,
    { s with
      numRows := s.numRows + 1
      store := write_slot s.store s.numRows row })

/-- Folding `execute_insert` over a list of prepared rows, collecting the
per-statement results (the capacity scenario of the spec). -/
def insert_many (t : Table) : List (List Nat) → TableState →
    List ExecuteResult × TableState
  | [], s => ([], s)
  | r :: rest, s =>
      let step := execute_insert t r s
      let more := insert_many t rest step.2
      (step.1 :: more.1, more.2)

/-- Scan loop of `execute_select` (src/main.c:1309-1332).  `pred` is the
evaluation of the statement's `WHERE` clause on a deserialized row (an absent
clause is `fun _ => true`); the returned list holds the rows that are
printed.  The table state is threaded through the loop exactly as the C
code's `table` pointer is. -/
def select_loop (pred : List Nat → Bool) (s : TableState) :
    Nat → Nat → List (List Nat) × TableState
  | _, 0 => ([], s)
  | rn, fuel + 1 =>
      let row := readRow s.store rn
      let rest := select_loop pred s (rn + 1) fuel
      if pred row then (row :: rest.1, rest.2) else rest

/-- `execute_select` (src/main.c:1309-1332): the cursor starts at
`table_start` and the loop runs once per occupied row. -/
def execute_select (pred : List Nat → Bool) (s : TableState) :
    List (List Nat) × TableState :=
  select_loop pred s 0 s.numRows

/-- Scan-and-overwrite loop of `execute_update` (src/main.c:1341-1355): each
matching row gets `column.size` bytes of the prepared value copied at the
target column's offset and is written back through the same cursor. -/
def update_loop (off : Nat) (v : List Nat) (pred : List Nat → Bool) :
    List (List Nat) → Nat → Nat → List (List Nat)
  | store, _, 0 => store
  | store, rn, fuel + 1 =>
      let row := readRow store rn
      if pred row then
        update_loop off v pred (store.set rn (setBytes row off v)) (rn + 1) fuel
      else
        update_loop off v pred store (rn + 1) fuel

/-- `execute_update` (src/main.c:1334-1360).  `col` is the target column and
`v` the prepared value buffer (whose length is `col.size` after
`copy_value_into_bytes`); the `memcpy` copies `col.size` bytes of it. -/
def execute_update (col : ColumnDefinition) (v : List Nat)
    (pred : List Nat → Bool) (s : TableState) : ExecuteResult × TableState :=
  (.EXECUTE_SUCCESS,
    { s with store := update_loop col.offset (v.take col.size) pred s.store 0 s.numRows })

/-- First pass of `execute_delete` (src/main.c:1366-1382): zero each matching
row in place and count the deletions. -/
def delete_mark_loop (row_size : Nat) (pred : List Nat → Bool) :
    List (List Nat) → Nat → Nat → Nat → List (List Nat) × Nat
  | store, _, cnt, 0 => (store, cnt)
  | store, rn, cnt, fuel + 1 =>
      let row := readRow store rn
      if pred row then
        delete_mark_loop row_size pred
          (store.set rn (List.replicate row_size 0)) (rn + 1) (cnt + 1) fuel
      else
        delete_mark_loop row_size pred store (rn + 1) cnt fuel

/-- Second (compaction) pass of `execute_delete` (src/main.c:1384-1413).
`hole` is `cursor2->row_num`, a `uint32_t` initialised to `-1` and only ever
compared against `-1`, modelled as an `Int` sentinel.  Note that the C code
re-assigns `cursor2->row_num = cursor->row_num` at *every* all-zero row, not
only when the write cursor is idle. -/
def delete_compact_loop (row_size : Nat) :
    List (List Nat) → Nat → Int → Nat → List (List Nat)
  | store, _, _, 0 => store
  | store, rn, hole, fuel + 1 =>
      let row := readRow store rn
      if row = List.replicate row_size 0 then
        delete_compact_loop row_size store (rn + 1) (Int.ofNat rn) fuel
      else if hole ≠ -1 then
        delete_compact_loop row_size
          ((store.set hole.toNat row).set rn (List.replicate row_size 0))
          (rn + 1) (hole + 1) fuel
      else
        delete_compact_loop row_size store (rn + 1) hole fuel

/-- `execute_delete` (src/main.c:1362-1419): mark pass, compaction pass, then
`num_rows -= num_deleted_rows`. -/
def execute_delete (t : Table) (pred : List Nat → Bool) (s : TableState) :
    ExecuteResult × TableState :=
  let marked := delete_mark_loop t.row_size pred s.store 0 0 s.numRows
  let compacted := delete_compact_loop t.row_size marked.1 0 (-1) s.numRows
  (.EXECUTE_SUCCESS,
    { s with
      numRows := s.numRows - marked.2
      store := compacted })

/-- Per-column failure check of the `prepare_insert` value loop
(src/main.c:960-992): an INTEGER column named `id` rejects values `≤ 0`, a
VARCHAR column rejects raw text longer than its size, a REAL column never
fails. -/
def column_value_check (c : ColumnDefinition) (v : String) :
    Option PrepareResult :=
  match c.type with
  | .INTEGER =>
      if atoiInt v ≤ 0 ∧ c.name = "id" then some .PREPARE_NEGATIVE_ID else none
  | .VARCHAR =>
      if c.size < v.length then some .PREPARE_STRING_TOO_LONG else none
  | .REAL => none

/-- Value loop of `prepare_insert` (src/main.c:957-992), walking columns and
the split value tokens in step and writing each value into the zeroed row
buffer.  `realEnc` abstracts the REAL branch's byte image (a 4-byte `float`
whose bit pattern has no shallow embedding); it never affects control flow.
The mismatched-length cases are unreachable after the arity check
(src/main.c:948). -/
def prepare_row_loop (realEnc : String → Nat → List Nat) :
    List ColumnDefinition → List String → List Nat →
    Except PrepareResult (List Nat)
  | [], [], row => .ok row
  | _ :: _, [], _ => .error .PREPARE_SYNTAX_ERROR
  | [], _ :: _, _ => .error .PREPARE_SYNTAX_ERROR
  | c :: cs, v :: vs, row =>
      match c.type with
      | .INTEGER =>
          let n := atoiInt v
          if n ≤ 0 ∧ c.name = "id" then .error .PREPARE_NEGATIVE_ID
          else prepare_row_loop realEnc cs vs
            (setBytes row c.offset ((encodeInt32 n).take c.size))
      | .VARCHAR =>
          if c.size < v.length then .error .PREPARE_STRING_TOO_LONG
          else prepare_row_loop realEnc cs vs
            (setBytes row c.offset (strBytes v))
      | .REAL =>
          prepare_row_loop realEnc cs vs
            (setBytes row c.offset (realEnc v c.size))

/-- Row-building stage of `prepare_insert` (src/main.c:947-997): check the
value count against the column count, zero-initialise the row buffer
(`memset(row.data, 0, table->row_size)`), then run the value loop. -/
def prepare_insert_values (realEnc : String → Nat → List Nat) (t : Table)
    (values : List String) : Except PrepareResult (List Nat) :=
  if values.length ≠ t.columns.length then .error .PREPARE_SYNTAX_ERROR
  else prepare_row_loop realEnc t.columns values (List.replicate t.row_size 0)

/-- Outcome string printed by the REPL for each prepare result
(src/main.c:1464-1486). -/
def prepare_result_message : PrepareResult → String
  | .PREPARE_SUCCESS => ""
  | .PREPARE_NEGATIVE_ID => "ID must be positive."
  | .PREPARE_STRING_TOO_LONG => "String is too long."
  | .PREPARE_UNRECOGNIZED_STATEMENT => "Unrecognized keyword at start of"
  | .PREPARE_INTERNAL_ERROR => "Internal error."
  | .PREPARE_SYNTAX_ERROR => "Syntax error."
  | .PREPARE_TABLE_NOT_FOUND => "Table not found."

/-- Verb dispatch of `prepare_statement` (src/main.c:1176-1192): four
`strncmp(input_buffer->buffer, keyword, 6)` checks against the raw input, in
source order; `none` is `PREPARE_UNRECOGNIZED_STATEMENT`.  A `strncmp` with
a NUL-free six-character keyword succeeds exactly when the first six
characters of the buffer are that keyword. -/
def prepare_statement_dispatch (buffer : List Char) : Option StatementType :=
  if buffer.take 6 = "insert".toList then some .STATEMENT_INSERT
  else if buffer.take 6 = "select".toList then some .STATEMENT_SELECT
  else if buffer.take 6 = "update".toList then some .STATEMENT_UPDATE
  else if buffer.take 6 = "delete".toList then some .STATEMENT_DELETE
  else none

/-- The cursor invariant stated in the spec: `end_of_table` iff
`row_num ≥ table.num_rows`. -/
def cursor_inv (num_rows : Nat) (c : Cursor) : Prop :=
  c.end_of_table = true ↔ num_rows ≤ c.row_num

/-- Sum of the declared column sizes. -/
def sum_sizes (cols : List ColumnDefinition) : Nat :=
  (cols.map (fun c => c.size)).sum

/-- A single INTEGER column named `id` of size 4 (offset 0). -/
def col_id : ColumnDefinition := ⟨"id", 4, 0, .INTEGER⟩

/-- The table built by `schema_fill` for the one-column schema `id:4:int`
over an empty backing file: `row_size = 4`, `rows_per_page = 1024`,
`max_rows = 102400`. -/
def tC1 : Table := (schema_fill [⟨"id", 4, 0, .INTEGER⟩] 0).1

/-- The prepared clause `where id < 5`, evaluated by `valid_where_clause`. -/
def predC1 : List Nat → Bool :=
  valid_where_clause_int col_id .OP_LESS_THAN (copy_value_into_bytes_int col_id "5")

/-- Table state holding the four rows `id = 5, 1, 2, 9` in this order. -/
def sC1 : TableState :=
  ⟨4, [encodeInt32 5, encodeInt32 1, encodeInt32 2, encodeInt32 9], 0⟩

/-- A REAL-literal encoding used to instantiate `prepare_row_loop`'s `realEnc`
parameter on tables that have no REAL column (where it is never consulted). -/
def real_enc_zero (value : String) (size : Nat) : List Nat :=
  List.replicate size 0

/-- Two-column table whose VARCHAR column precedes its INTEGER `id` column
(schema `s:1:varchar,id:4:int`). -/
def t_str_id : Table :=
  ⟨[⟨"s", 1, 0, .VARCHAR⟩, ⟨"id", 4, 1, .INTEGER⟩], 5, 819, 81900⟩

/-- One-column table `id:4:int` shrunk to a two-row capacity
(`rows_per_page = 1`, `max_rows = 2`) for concrete capacity runs. -/
def t_tiny : Table := ⟨[⟨"id", 4, 0, .INTEGER⟩], 4, 1, 2⟩

end CSQL

namespace CSQL

/- ## Helper lemmas -/

theorem fill_offsets_length (cols : List ColumnDefinition) (acc : Nat) :
    (fill_offsets cols acc).1.length = cols.length := by
  induction cols generalizing acc with
  | nil => rfl
  | cons c cs ih => simp [fill_offsets, ih]

theorem fill_offsets_total (cols : List ColumnDefinition) (acc : Nat) :
    (fill_offsets cols acc).2 = acc + sum_sizes cols := by
  induction cols generalizing acc with
  | nil => simp [fill_offsets, sum_sizes]
  | cons c cs ih => simp [fill_offsets, sum_sizes, ih] at *; omega

theorem fill_offsets_offset (cols : List ColumnDefinition) (acc : Nat)
    (j : Nat) (hj : j < cols.length) :
    ((fill_offsets cols acc).1[j]?).map (fun c => c.offset) =
      some (acc + sum_sizes (cols.take j)) := by
  induction cols generalizing acc j with
  | nil => exact absurd hj (Nat.not_lt_zero j)
  | cons c cs ih =>
      cases j with
      | zero => simp [fill_offsets, sum_sizes]
      | succ j =>
          have hj' : j < cs.length := Nat.lt_of_succ_lt_succ hj
          have h2 := ih (acc + c.size) j hj'
          simp [fill_offsets, sum_sizes] at h2 ⊢
          obtain ⟨a, ha, hoff⟩ := h2
          exact ⟨a, ha, by omega⟩

theorem select_loop_state (pred : List Nat → Bool) (s : TableState) :
    ∀ fuel rn, (select_loop pred s rn fuel).2 = s := by
  intro fuel
  induction fuel with
  | zero => intro rn; rfl
  | succ f ih =>
      intro rn
      simp only [select_loop]
      split
      · exact ih (rn + 1)
      · exact ih (rn + 1)

/- ## Claim theorems -/

/-- Claim C7: at table construction, each column's offset is the prefix sum
of the sizes of the preceding columns, `row_size` is the sum of all column
sizes, `rows_per_page = ⌊PAGE_SIZE / row_size⌋`,
`max_rows = rows_per_page * TABLE_MAX_PAGES`, and `num_rows` is inferred
from the backing file length as
`(file_length / PAGE_SIZE) * rows_per_page + (file_length % PAGE_SIZE) / row_size`. -/
theorem schema_fill_layout_spec (cols : List ColumnDefinition)
    (file_length : Nat) (hpos : 0 < sum_sizes cols) :
    (schema_fill cols file_length).1.row_size = sum_sizes cols ∧
    (∀ j, j < cols.length →
      (((schema_fill cols file_length).1.columns)[j]?).map (fun c => c.offset) =
        some (sum_sizes (cols.take j))) ∧
    (schema_fill cols file_length).1.rows_per_page =
      PAGE_SIZE / sum_sizes cols ∧
    (schema_fill cols file_length).1.max_rows =
      PAGE_SIZE / sum_sizes cols * TABLE_MAX_PAGES ∧
    (schema_fill cols file_length).2 =
      file_length / PAGE_SIZE * (PAGE_SIZE / sum_sizes cols) +
        file_length % PAGE_SIZE / sum_sizes cols := by
  have htot : (fill_offsets cols 0).2 = sum_sizes cols := by
    simp [fill_offsets_total]
  refine ⟨?_, ?_, ?_, ?_, ?_⟩
  · simp [schema_fill, htot]
  · intro j hj
    have := fill_offsets_offset cols 0 j hj
    simpa [schema_fill] using this
  · simp [schema_fill, htot]
  · simp [schema_fill, htot]
  · simp [schema_fill, htot]

/-- Claim C7 witness: the layout facts at the schema
`id:4:int,username:32:varchar,email:255:varchar` with an empty file. -/
theorem schema_fill_layout_spec_witness :
    0 < sum_sizes [⟨"id", 4, 0, .INTEGER⟩, ⟨"username", 32, 0, .VARCHAR⟩,
      ⟨"email", 255, 0, .VARCHAR⟩] ∧
    (schema_fill [⟨"id", 4, 0, .INTEGER⟩, ⟨"username", 32, 0, .VARCHAR⟩,
      ⟨"email", 255, 0, .VARCHAR⟩] 0).1.row_size = 291 ∧
    ((schema_fill [⟨"id", 4, 0, .INTEGER⟩, ⟨"username", 32, 0, .VARCHAR⟩,
      ⟨"email", 255, 0, .VARCHAR⟩] 0).1.columns[2]?).map (fun c => c.offset) =
      some 36 := by
  have h := schema_fill_layout_spec
    [⟨"id", 4, 0, .INTEGER⟩, ⟨"username", 32, 0, .VARCHAR⟩,
      ⟨"email", 255, 0, .VARCHAR⟩] 0 (by decide)
  refine ⟨by decide, ?_, ?_⟩
  · rw [h.1]; decide
  · rw [h.2.1 2 (by decide)]; decide

/-- Claim C8: cursors from `table_start` and `table_end` satisfy the
invariant `end_of_table ↔ row_num ≥ num_rows`, and `cursor_advance`
increments `row_num` by one and preserves the invariant (it sets
`end_of_table` exactly when the new `row_num` reaches or exceeds
`num_rows`). -/
theorem cursor_invariant_spec (n : Nat) (c : Cursor) :
    cursor_inv n (table_start n) ∧
    cursor_inv n (table_end n) ∧
    (cursor_advance n c).row_num = c.row_num + 1 ∧
    (cursor_inv n c → cursor_inv n (cursor_advance n c)) := by
  refine ⟨?_, ?_, rfl, ?_⟩
  · simp [cursor_inv, table_start]
    try omega
  · simp [cursor_inv, table_end]
  · intro h
    simp only [cursor_inv, cursor_advance] at h ⊢
    split <;> simp_all <;> try omega

/-- Claim C8 witness: the invariant facts at `num_rows = 2` and the cursor
`⟨0, false⟩`. -/
theorem cursor_invariant_spec_witness :
    cursor_inv 2 (⟨0, false⟩ : Cursor) ∧
    cursor_inv 2 (cursor_advance 2 ⟨0, false⟩) ∧
    (cursor_advance 2 ⟨0, false⟩).row_num = 1 := by
  have hinv : cursor_inv 2 (⟨0, false⟩ : Cursor) := by
    simp [cursor_inv]
  exact ⟨hinv, (cursor_invariant_spec 2 ⟨0, false⟩).2.2.2 hinv,
    (cursor_invariant_spec 2 ⟨0, false⟩).2.2.1⟩

/-- Claim C9: `execute_select` leaves the table state (its `num_rows`, all
stored row bytes, and the pager's file length) completely unchanged, for any
`WHERE` predicate (an absent clause is the constantly-true predicate) and
hence for any projection, which only affects printing. -/
theorem execute_select_preserves_state (pred : List Nat → Bool)
    (s : TableState) : (execute_select pred s).2 = s :=
  select_loop_state pred s s.numRows 0

/-- Claim C10: under `max_rows = rows_per_page * TABLE_MAX_PAGES`, every page
index `row_num / rows_per_page` computed by `cursor_value` at an access with
`row_num < max_rows` is strictly below `TABLE_MAX_PAGES`, so the fatal
out-of-bounds branch of `get_page` is not reached and the page-slot access
stays inside the `pages` array. -/
theorem cursor_value_page_in_bounds (t : Table) (rn : Nat)
    (hmax : t.max_rows = t.rows_per_page * TABLE_MAX_PAGES)
    (hrow : rn < t.max_rows) :
    cursor_value_page_num t rn < TABLE_MAX_PAGES ∧
    get_page_out_of_bounds (cursor_value_page_num t rn) = false := by
  have hrpp : 0 < t.rows_per_page := by
    rcases Nat.eq_zero_or_pos t.rows_per_page with h | h
    · rw [hmax, h] at hrow
      simp at hrow
    · exact h
  have hlt : rn / t.rows_per_page < TABLE_MAX_PAGES := by
    rw [Nat.div_lt_iff_lt_mul hrpp]
    rw [hmax, Nat.mul_comm] at hrow
    exact hrow
  refine ⟨hlt, ?_⟩
  simp only [get_page_out_of_bounds, cursor_value_page_num,
    decide_eq_false_iff_not]
  exact Nat.not_lt.mpr (Nat.le_of_lt hlt)

theorem insert_many_all_success (t : Table) :
    ∀ (rows : List (List Nat)) (s : TableState),
      s.numRows ≤ s.store.length →
      s.numRows + rows.length ≤ t.max_rows →
      (insert_many t rows s).1 = List.replicate rows.length .EXECUTE_SUCCESS ∧
      (insert_many t rows s).2.numRows = s.numRows + rows.length ∧
      (insert_many t rows s).2.numRows ≤ (insert_many t rows s).2.store.length ∧
      (insert_many t rows s).2.fileLength = s.fileLength := by
  intro rows
  induction rows with
  | nil =>
      intro s h1 h2
      exact ⟨rfl, rfl, h1, rfl⟩
  | cons r rest ih =>
      intro s h1 h2
      have hfull : ¬ t.max_rows ≤ s.numRows := by
        simp only [List.length_cons] at h2
        omega
      have hstep : execute_insert t r s =
          (.EXECUTE_SUCCESS,
            { s with
              numRows := s.numRows + 1
              store := write_slot s.store s.numRows r }) := by
        simp [execute_insert, hfull]
      have hlen : s.numRows + 1 ≤ (write_slot s.store s.numRows r).length := by
        simp only [write_slot]
        split
        · simp
          omega
        · simp
          omega
      have ihr := ih { s with
          numRows := s.numRows + 1
          store := write_slot s.store s.numRows r } hlen
        (by simp only [List.length_cons] at h2; simp; omega)
      obtain ⟨ih1, ih2, ih3, ih4⟩ := ihr
      simp only [insert_many, hstep, List.length_cons]
      refine ⟨?_, ?_, ih3, ?_⟩
      · rw [List.replicate_succ, ih1]
      · rw [ih2]
        simp
        omega
      · rw [ih4]

theorem insert_many_append (t : Table) (l1 l2 : List (List Nat))
    (s : TableState) :
    insert_many t (l1 ++ l2) s =
      ((insert_many t l1 s).1 ++ (insert_many t l2 (insert_many t l1 s).2).1,
        (insert_many t l2 (insert_many t l1 s).2).2) := by
  induction l1 generalizing s with
  | nil => simp [insert_many]
  | cons r rest ih => simp [insert_many, ih]

theorem setBytes_idem (r v : List Nat) (off : Nat)
    (h : off + v.length ≤ r.length) :
    setBytes (setBytes r off v) off v = setBytes r off v := by
  have hoff : (r.take off).length = off := by
    simp
    omega
  have hlen2 : (r.take off ++ v).length = off + v.length := by
    simp
    omega
  have h1 : (setBytes r off v).take off = r.take off := by
    show (r.take off ++ v ++ r.drop (off + v.length)).take off = r.take off
    rw [List.append_assoc]
    exact List.take_left' hoff
  have h2 : (setBytes r off v).drop (off + v.length) =
      r.drop (off + v.length) := by
    show ((r.take off ++ v) ++ r.drop (off + v.length)).drop (off + v.length) =
      r.drop (off + v.length)
    exact List.drop_left' hlen2
  calc setBytes (setBytes r off v) off v
      = (setBytes r off v).take off ++ v ++
          (setBytes r off v).drop (off + v.length) := rfl
    _ = r.take off ++ v ++ r.drop (off + v.length) := by rw [h1, h2]
    _ = setBytes r off v := rfl

theorem update_loop_getElem?_lt (off : Nat) (v : List Nat)
    (pred : List Nat → Bool) :
    ∀ (fuel : Nat) (store : List (List Nat)) (rn j : Nat), j < rn →
      (update_loop off v pred store rn fuel)[j]? = store[j]? := by
  intro fuel
  induction fuel with
  | zero => intro store rn j hj; rfl
  | succ f ih =>
      intro store rn j hj
      simp only [update_loop]
      split
      · rw [ih _ (rn + 1) j (by omega), List.getElem?_set_ne (by omega)]
      · exact ih _ (rn + 1) j (by omega)

theorem update_loop_getElem?_ge (off : Nat) (v : List Nat)
    (pred : List Nat → Bool) :
    ∀ (fuel : Nat) (store : List (List Nat)) (rn j : Nat), rn + fuel ≤ j →
      (update_loop off v pred store rn fuel)[j]? = store[j]? := by
  intro fuel
  induction fuel with
  | zero => intro store rn j hj; rfl
  | succ f ih =>
      intro store rn j hj
      simp only [update_loop]
      split
      · rw [ih _ (rn + 1) j (by omega), List.getElem?_set_ne (by omega)]
      · exact ih _ (rn + 1) j (by omega)

theorem update_loop_getElem?_in (off : Nat) (v : List Nat)
    (pred : List Nat → Bool) :
    ∀ (fuel : Nat) (store : List (List Nat)) (rn j : Nat), rn ≤ j →
      j < rn + fuel →
      (update_loop off v pred store rn fuel)[j]? =
        (store[j]?).map (fun r => if pred r then setBytes r off v else r) := by
  intro fuel
  induction fuel with
  | zero => intro store rn j h1 h2; omega
  | succ f ih =>
      intro store rn j h1 h2
      rcases Nat.eq_or_lt_of_le h1 with heq | hlt
      · subst heq
        simp only [update_loop]
        by_cases hp : pred (readRow store rn)
        · rw [if_pos hp,
            update_loop_getElem?_lt off v pred f _ (rn + 1) rn (by omega)]
          cases hsr : store[rn]? with
          | none =>
              have hge : store.length ≤ rn := List.getElem?_eq_none_iff.mp hsr
              rw [List.set_eq_of_length_le hge, hsr]
              rfl
          | some a =>
              have hl : rn < store.length := by
                by_contra hcon
                rw [List.getElem?_eq_none (by omega)] at hsr
                exact Option.noConfusion hsr
              have hra : readRow store rn = a := by
                simp [readRow, hsr]
              rw [hra] at hp
              rw [hra, List.getElem?_set_self hl]
              simp [hp]
        · rw [if_neg hp,
            update_loop_getElem?_lt off v pred f _ (rn + 1) rn (by omega)]
          cases hsr : store[rn]? with
          | none => rfl
          | some a =>
              have hra : readRow store rn = a := by
                simp [readRow, hsr]
              rw [hra] at hp
              simp [hp]
      · simp only [update_loop]
        split
        · rw [ih _ (rn + 1) j hlt (by omega), List.getElem?_set_ne (by omega)]
        · exact ih _ (rn + 1) j hlt (by omega)

/-- Claim C6: executing the same prepared `UPDATE … SET col = v WHERE p`
twice in succession yields exactly the same table state (`num_rows` and all
row bytes) as executing it once, for every table state whose stored rows are
wide enough to hold the target column and every `WHERE` predicate. -/
theorem execute_update_idempotent (col : ColumnDefinition) (v : List Nat)
    (pred : List Nat → Bool) (s : TableState)
    (hrow : ∀ r ∈ s.store, col.offset + col.size ≤ r.length) :
    execute_update col v pred (execute_update col v pred s).2 =
      execute_update col v pred s := by
  have hvlen : (v.take col.size).length ≤ col.size := by
    simp
  have hstore : update_loop col.offset (v.take col.size) pred
      (update_loop col.offset (v.take col.size) pred s.store 0 s.numRows)
      0 s.numRows =
      update_loop col.offset (v.take col.size) pred s.store 0 s.numRows := by
    apply List.ext_getElem?
    intro j
    rcases Nat.lt_or_ge j s.numRows with hj | hj
    · rw [update_loop_getElem?_in col.offset (v.take col.size) pred s.numRows _
        0 j (Nat.zero_le j) (by omega)]
      rw [update_loop_getElem?_in col.offset (v.take col.size) pred s.numRows
        s.store 0 j (Nat.zero_le j) (by omega)]
      cases hsj : s.store[j]? with
      | none => rfl
      | some r =>
          have hlen := hrow r (List.getElem?_mem hsj)
          simp only [Option.map_some']
          by_cases hp : pred r
          · by_cases hp2 : pred (setBytes r col.offset (v.take col.size))
            · simp [hp, hp2,
                setBytes_idem r (v.take col.size) col.offset (by omega)]
            · simp [hp, hp2]
          · simp [hp]
    · rw [update_loop_getElem?_ge col.offset (v.take col.size) pred s.numRows _
        0 j (by omega)]
  simp only [execute_update]
  rw [hstore]

/-- Claim C6 witness: updating `id` to 5 where `id < 5` on the four-row
state is idempotent. -/
theorem execute_update_idempotent_witness :
    execute_update col_id (encodeInt32 5) predC1
      (execute_update col_id (encodeInt32 5) predC1 sC1).2 =
      execute_update col_id (encodeInt32 5) predC1 sC1 :=
  execute_update_idempotent col_id (encodeInt32 5) predC1 sC1 (by decide)

/-- Claim C3: with `num_rows = max_rows` an insert returns `TABLE_FULL` and
leaves the state untouched; with `num_rows < max_rows` it succeeds, writes
the prepared row at slot `num_rows` (touching no other slot), and increments
`num_rows` by one; consequently `max_rows + 1` inserts into an empty table
succeed `max_rows` times and fail with `TABLE_FULL` on the last attempt. -/
theorem execute_insert_capacity_spec (t : Table) (row : List Nat)
    (s : TableState) (hlen : s.numRows ≤ s.store.length) :
    (s.numRows = t.max_rows → execute_insert t row s = (.EXECUTE_TABLE_FULL, s)) ∧
    (s.numRows < t.max_rows →
      (execute_insert t row s).1 = .EXECUTE_SUCCESS ∧
      (execute_insert t row s).2.numRows = s.numRows + 1 ∧
      (execute_insert t row s).2.store[s.numRows]? = some row ∧
      (∀ j, j ≠ s.numRows →
        (execute_insert t row s).2.store[j]? = s.store[j]?)) ∧
    (∀ rows : List (List Nat), s.numRows = 0 → rows.length = t.max_rows + 1 →
      (insert_many t rows s).1 =
        List.replicate t.max_rows .EXECUTE_SUCCESS ++ [.EXECUTE_TABLE_FULL]) := by
  refine ⟨?_, ?_, ?_⟩
  · intro heq
    simp [execute_insert, heq]
  · intro hlt
    have hfull : ¬ t.max_rows ≤ s.numRows := by omega
    refine ⟨by simp [execute_insert, hfull], by simp [execute_insert, hfull],
      ?_, ?_⟩
    · simp only [execute_insert, hfull, if_false]
      simp only [write_slot]
      split
      · simp_all
      · have hx : s.numRows = s.store.length := by omega
        rw [hx]
        exact List.getElem?_concat_length s.store row
    · intro j hj
      simp only [execute_insert, hfull, if_false]
      simp only [write_slot]
      split
      · exact List.getElem?_set_ne (fun h => hj h.symm)
      · have hx : s.numRows = s.store.length := by omega
        rcases Nat.lt_or_ge j s.store.length with hlt2 | hge
        · exact List.getElem?_append_left hlt2
        · have hj2 : s.store.length < j := by omega
          rw [List.getElem?_eq_none (by simp; omega),
            List.getElem?_eq_none (by omega)]
  · intro rows h0 hcnt
    have hsplit := List.take_append_drop t.max_rows rows
    have htake : (rows.take t.max_rows).length = t.max_rows := by
      simp
      omega
    have hdrop : (rows.drop t.max_rows).length = 1 := by
      simp
      omega
    obtain ⟨last, hlast⟩ := List.length_eq_one.mp hdrop
    have hall := insert_many_all_success t (rows.take t.max_rows) s
      hlen (by omega)
    rw [← hsplit, insert_many_append, hall.1, htake, hlast]
    have hmid := hall.2.1
    rw [htake, h0] at hmid
    have hmidfull : t.max_rows ≤ (insert_many t (rows.take t.max_rows) s).2.numRows := by
      omega
    simp [insert_many, execute_insert, hmidfull]

/-- Claim C3 witness: on the two-row table, a full-state insert fails and
leaves the state unchanged, a non-full insert writes slot `num_rows`, and
three inserts into the empty table give success, success, table-full. -/
theorem execute_insert_capacity_spec_witness :
    ((2 : Nat) ≤ 2 ∧
      execute_insert t_tiny (encodeInt32 7)
        ⟨2, [encodeInt32 1, encodeInt32 2], 0⟩ =
        (.EXECUTE_TABLE_FULL, ⟨2, [encodeInt32 1, encodeInt32 2], 0⟩)) ∧
    ((execute_insert t_tiny (encodeInt32 7) ⟨0, [], 0⟩).1 =
        .EXECUTE_SUCCESS ∧
      (execute_insert t_tiny (encodeInt32 7) ⟨0, [], 0⟩).2.store[0]? =
        some (encodeInt32 7)) ∧
    (insert_many t_tiny
        [encodeInt32 1, encodeInt32 2, encodeInt32 3] ⟨0, [], 0⟩).1 =
      List.replicate 2 .EXECUTE_SUCCESS ++ [.EXECUTE_TABLE_FULL] := by
  have h1 := execute_insert_capacity_spec t_tiny (encodeInt32 7)
    ⟨2, [encodeInt32 1, encodeInt32 2], 0⟩ (by decide)
  have h2 := execute_insert_capacity_spec t_tiny (encodeInt32 7)
    ⟨0, [], 0⟩ (by decide)
  have h3 := execute_insert_capacity_spec t_tiny (encodeInt32 1)
    ⟨0, [], 0⟩ (by decide)
  refine ⟨⟨by decide, h1.1 (by decide)⟩, ⟨(h2.2.1 (by decide)).1,
    (h2.2.1 (by decide)).2.2.1⟩, ?_⟩
  exact h3.2.2 [encodeInt32 1, encodeInt32 2, encodeInt32 3]
    (by decide) (by decide)

/-- Claim C10 witness: the bound at the `id:4:int` table and `row_num = 0`. -/
theorem cursor_value_page_in_bounds_witness :
    tC1.max_rows = tC1.rows_per_page * TABLE_MAX_PAGES ∧
    (0 : Nat) < tC1.max_rows ∧
    cursor_value_page_num tC1 0 < TABLE_MAX_PAGES ∧
    get_page_out_of_bounds (cursor_value_page_num tC1 0) = false := by
  have h := cursor_value_page_in_bounds tC1 0 (by decide) (by decide)
  exact ⟨by decide, by decide, h.1, h.2⟩

end CSQL

namespace CSQL

theorem prepare_row_loop_negative_id (realEnc : String → Nat → List Nat) :
    ∀ (i : Nat) (cols : List ColumnDefinition) (values : List String)
      (row : List Nat) (c : ColumnDefinition) (v : String),
      cols[i]? = some c → values[i]? = some v →
      c.type = .INTEGER → c.name = "id" → atoiInt v ≤ 0 →
      (∀ j cj vj, j < i → cols[j]? = some cj → values[j]? = some vj →
        column_value_check cj vj = none) →
      prepare_row_loop realEnc cols values row =
        .error .PREPARE_NEGATIVE_ID := by
  intro i
  induction i with
  | zero =>
      intro cols values row c v hc hv htype hname hneg hbefore
      cases cols with
      | nil => simp at hc
      | cons c0 cs =>
          cases values with
          | nil => simp at hv
          | cons v0 vs =>
              simp at hc hv
              subst hc
              subst hv
              rcases c0 with ⟨cname, csize, coff, ctype⟩
              simp at htype hname
              subst htype
              simp only [prepare_row_loop]
              rw [if_pos ⟨hneg, hname⟩]
  | succ i ih =>
      intro cols values row c v hc hv htype hname hneg hbefore
      cases cols with
      | nil => simp at hc
      | cons c0 cs =>
          cases values with
          | nil => simp at hv
          | cons v0 vs =>
              simp only [List.getElem?_cons_succ] at hc hv
              have hchk := hbefore 0 c0 v0 (Nat.succ_pos i)
                (by simp) (by simp)
              have hbefore' : ∀ j cj vj, j < i → cs[j]? = some cj →
                  vs[j]? = some vj → column_value_check cj vj = none := by
                intro j cj vj hj hcj hvj
                exact hbefore (j + 1) cj vj (by omega) (by simpa) (by simpa)
              rcases c0 with ⟨c0name, c0size, c0off, c0type⟩
              cases c0type with
              | INTEGER =>
                  simp only [column_value_check] at hchk
                  simp only [prepare_row_loop]
                  rw [if_neg (by
                    intro hcon
                    rw [if_pos hcon] at hchk
                    exact Option.noConfusion hchk)]
                  exact ih cs vs _ c v hc hv htype hname hneg hbefore'
              | VARCHAR =>
                  simp only [column_value_check] at hchk
                  simp only [prepare_row_loop]
                  rw [if_neg (by
                    intro hcon
                    rw [if_pos hcon] at hchk
                    exact Option.noConfusion hchk)]
                  exact ih cs vs _ c v hc hv htype hname hneg hbefore'
              | REAL =>
                  simp only [prepare_row_loop]
                  exact ih cs vs _ c v hc hv htype hname hneg hbefore'

/-- Claim C4 (amended): an INSERT whose INTEGER column named `id` receives a
parsed value `≤ 0` is rejected with `NEGATIVE_ID` (printed as
`ID must be positive.`), provided the value count matches the column count
and no column *earlier in declaration order* fails its own check first (an
earlier over-long VARCHAR wins with `STRING_TOO_LONG`).  Preparation is a
pure function of the statement and never touches the table state. -/
theorem prepare_insert_negative_id_spec (realEnc : String → Nat → List Nat)
    (t : Table) (values : List String) (i : Nat) (c : ColumnDefinition)
    (v : String) (harity : values.length = t.columns.length)
    (hc : t.columns[i]? = some c) (hv : values[i]? = some v)
    (htype : c.type = .INTEGER) (hname : c.name = "id")
    (hneg : atoiInt v ≤ 0)
    (hbefore : ∀ j cj vj, j < i → t.columns[j]? = some cj →
      values[j]? = some vj → column_value_check cj vj = none) :
    prepare_insert_values realEnc t values = .error .PREPARE_NEGATIVE_ID ∧
    prepare_result_message .PREPARE_NEGATIVE_ID = "ID must be positive." := by
  refine ⟨?_, rfl⟩
  simp only [prepare_insert_values]
  rw [if_neg (fun hne => hne harity)]
  exact prepare_row_loop_negative_id realEnc i t.columns values _ c v
    hc hv htype hname hneg hbefore

/-- Claim C4 witness: `insert into t values (-3)` on the one-column
`id:4:int` table is rejected with `NEGATIVE_ID`. -/
theorem prepare_insert_negative_id_spec_witness :
    atoiInt "-3" ≤ 0 ∧
    prepare_insert_values real_enc_zero tC1 ["-3"] =
      .error .PREPARE_NEGATIVE_ID ∧
    prepare_result_message .PREPARE_NEGATIVE_ID = "ID must be positive." := by
  have h := prepare_insert_negative_id_spec real_enc_zero tC1 ["-3"] 0
    col_id "-3" (by decide) (by decide) (by decide) (by decide) (by decide)
    (by decide) (fun j cj vj hj _ _ => absurd hj (Nat.not_lt_zero j))
  exact ⟨by decide, h.1, h.2⟩

/-- Claim C4 counterexample: on the table `s:1:varchar,id:4:int`, the INSERT
value list `('ab', -1)` carries an `id` value `≤ 0`, yet preparation fails
with `STRING_TOO_LONG` (the earlier column's check), not `NEGATIVE_ID` —
refuting the claim that *every* such INSERT fails with `NEGATIVE_ID`. -/
theorem prepare_insert_earlier_error_precedes_negative_id :
    atoiInt "-1" ≤ 0 ∧
    prepare_insert_values real_enc_zero t_str_id ["ab", "-1"] =
      .error .PREPARE_STRING_TOO_LONG := by
  exact ⟨by decide, rfl⟩

/-- Claim C2 counterexample: the line `INSERT into users values (1)` has
first token `insert` once lowercased, yet `prepare_statement` dispatches on
the raw buffer and classifies it as unrecognized (`none`). -/
theorem dispatch_uppercase_insert_rejected :
    prepare_statement_dispatch ("INSERT into users values (1)".toList) =
      none ∧
    (str_to_lower ("INSERT into users values (1)".toList)).take 6 =
      "insert".toList := by
  exact ⟨rfl, rfl⟩

/-- Claim C2 (amended): `prepare_statement` dispatches by comparing the first
six characters of the raw input line, case-sensitively, with the lowercase
keywords: a line is routed to the insert/select/update/delete handler iff it
begins with exactly that lowercase keyword, and is rejected as unrecognized
otherwise — so lines beginning with `INSERT` or `Select` are rejected. -/
theorem dispatch_case_sensitive_keywords (buf : List Char) :
    (prepare_statement_dispatch buf = some .STATEMENT_INSERT ↔
      buf.take 6 = "insert".toList) ∧
    (prepare_statement_dispatch buf = some .STATEMENT_SELECT ↔
      buf.take 6 = "select".toList) ∧
    (prepare_statement_dispatch buf = some .STATEMENT_UPDATE ↔
      buf.take 6 = "update".toList) ∧
    (prepare_statement_dispatch buf = some .STATEMENT_DELETE ↔
      buf.take 6 = "delete".toList) ∧
    (prepare_statement_dispatch buf).isNone =
      ((buf.take 6 != "insert".toList) && (buf.take 6 != "select".toList) &&
        (buf.take 6 != "update".toList) && (buf.take 6 != "delete".toList)) := by
  unfold prepare_statement_dispatch
  split_ifs with h1 h2 h3 h4 <;> simp_all

/-- Claim C1 (code bug): on the `id:4:int` table holding rows
`5, 1, 2, 9`, `delete from t where id < 5` matches the two adjacent rows
`1` and `2`; after `execute_delete`, `num_rows` is 2 but the physical slots
are `5, 0, 9, 0`, so `select *` returns the all-zero row (which still
*satisfies* the predicate `id < 5`) instead of the surviving row `9` —
survivors are neither complete nor in the claimed order. -/
theorem execute_delete_adjacent_rows_lost :
    (execute_delete tC1 predC1 sC1).2.numRows = 2 ∧
    (execute_delete tC1 predC1 sC1).2.store =
      [encodeInt32 5, List.replicate 4 0, encodeInt32 9,
        List.replicate 4 0] ∧
    (execute_select (fun _ => true) (execute_delete tC1 predC1 sC1).2).1 =
      [encodeInt32 5, List.replicate 4 0] ∧
    predC1 (List.replicate 4 0) = true := by
  exact ⟨rfl, rfl, rfl, rfl⟩

end CSQL
